import Mathlib

/-!
A verification development for the `service/` core of the sqllineage service
repository: the sliding-window rate limiter middleware
(`app/middleware/rate_limiter.py`), the OpenMetadata column resolver
(`app/services/openmetadata_provider.py`) and the lineage projector
(`app/services/lineage_service.py`), shallowly embedded in Lean.

Timestamps are modelled as integers; the Python code uses `time.time()`
floats, but every operation on them in the embedded code is a comparison,
an addition or a subtraction, so the integer model is faithful for the
properties stated here.
-/

namespace SqlLineageService

/-! ## Rate limiter (`app/middleware/rate_limiter.py`) -/

/-- An incoming HTTP request, reduced to the fields the middleware reads:
the URL path, the optional `X-Forwarded-For` header and the optional
transport peer address (`request.client.host`). -/
structure Request where
  path : String
  xForwardedFor : Option String
  clientHost : Option String
deriving Repr, DecidableEq

/-- The `detail` dict of the HTTP 429 exception raised by `dispatch`. -/
structure RateLimitDetail where
  error : String
  limit : Nat
  window : String
  message : String
deriving Repr, DecidableEq

/-- An HTTP response, reduced to the status code, the headers and the
optional over-limit `detail` body.  For admitted requests the middleware
mutates the downstream response's headers; for denied requests the
`HTTPException` is turned by the app's exception handler into a JSON
response carrying the `detail` body and no extra headers. -/
structure HttpResp where
  status : Nat
  headers : List (String × String)
  detail : Option RateLimitDetail
deriving Repr, DecidableEq

/-- Association-list lookup (Python `dict` membership / access). -/
def alLookup {β : Type} : List (String × β) → String → Option β
  | [], _ => none
  | (k, v) :: rest, key => if k = key then some v else alLookup rest key

/-- Association-list update: replace the value at `key` if present, else
append a new entry at the end (Python `dict` assignment, which preserves
insertion order and appends new keys at the end). -/
def alSet {β : Type} : List (String × β) → String → β → List (String × β)
  | [], key, v => [(key, v)]
  | (k, w) :: rest, key, v =>
    if k = key then (k, v) :: rest else (k, w) :: alSet rest key v

/-- Association-list deletion (Python `del d[key]`). -/
def alErase {β : Type} : List (String × β) → String → List (String × β)
  | [], _ => []
  | (k, w) :: rest, key => if k = key then rest else (k, w) :: alErase rest key

/-- State of `RateLimiterMiddleware`: the configured per-minute limit, the
window size (set to 60 seconds in `__init__`) and the per-client map from
identity to the deque of admitted-request timestamps. -/
structure RateLimiter where
  requestsPerMinute : Nat
  windowSize : Int
  requestTimestamps : List (String × List Int)
deriving Repr, DecidableEq

/-- `RateLimiterMiddleware.__init__`: window size is fixed at 60 seconds,
the timestamp map starts empty. -/
def RateLimiter.init (requestsPerMinute : Nat) : RateLimiter :=
  { requestsPerMinute := requestsPerMinute, windowSize := 60, requestTimestamps := [] }

/-- The timestamp deque recorded for `ip`, as a list (`[]` when the map has
no entry, matching `defaultdict(deque)` read-only semantics). -/
def RateLimiter.entry (rl : RateLimiter) (ip : String) : List Int :=
  (alLookup rl.requestTimestamps ip).getD []

/-- `RateLimiterMiddleware._get_client_ip`: first comma-separated item of
`X-Forwarded-For`, stripped, when the header is present; else the transport
peer address; else `"unknown"`. -/
def getClientIp (req : Request) : String :=
  match req.xForwardedFor with
  | some forwarded => ((forwarded.splitOn ",").headD "").trim
  | none =>
    match req.clientHost with
    | some host => host
    | none => "unknown"

/-- `RateLimiterMiddleware._clean_old_timestamps`: pop timestamps `< now −
window_size` from the front of the deque for `ip`; if the deque is then
empty, delete the map entry.  (The `defaultdict` access materialises a fresh
empty deque for an absent key, which the emptiness check then deletes, so an
absent key stays absent.) -/
def cleanOldTimestamps (rl : RateLimiter) (ip : String) (now : Int) : RateLimiter :=
  let cutoff := now - rl.windowSize
  let ts := rl.entry ip
  let ts' := ts.dropWhile (fun t => t < cutoff)
  if ts' = [] then
    { rl with requestTimestamps := alErase rl.requestTimestamps ip }
  else
    { rl with requestTimestamps := alSet rl.requestTimestamps ip ts' }

/-- How `dispatch` classified a request. -/
inductive DispatchKind
  | exempt
  | denied
  | admitted
deriving Repr, DecidableEq

/-- Set one header, replacing an existing entry with the same name
(Starlette `MutableHeaders.__setitem__`). -/
def setHeader (hs : List (String × String)) (k v : String) : List (String × String) :=
  if (hs.map Prod.fst).contains k then
    hs.map (fun p => if p.1 = k then (p.1, v) else p)
  else hs ++ [(k, v)]

/-- `RateLimiterMiddleware.dispatch`.  `base` is the response produced by
`call_next` for admitted requests.  Returns the new middleware state, the
outgoing response and the classification of the request.

The health path is exempt and bypasses everything.  Otherwise the client
identity's deque is pruned; the `defaultdict` access in the limit check
inserts an empty deque when the key is absent; if the retained count has
reached the limit an `HTTPException(429)` is raised, which the application's
handler renders as a 429 response with the `detail` body and no rate-limit
headers; otherwise `now` is appended and the three `X-RateLimit-*` headers
are set on the downstream response. -/
def dispatch (rl : RateLimiter) (req : Request) (now : Int) (base : HttpResp) :
    RateLimiter × HttpResp × DispatchKind :=
  if req.path = "/health" then
    (rl, base, .exempt)
  else
    let ip := getClientIp req
    let rl1 := cleanOldTimestamps rl ip now
    let m2 := match alLookup rl1.requestTimestamps ip with
      | some _ => rl1.requestTimestamps
      | none => alSet rl1.requestTimestamps ip []
    let ts := (alLookup m2 ip).getD []
    if rl1.requestsPerMinute ≤ ts.length then
      ({ rl1 with requestTimestamps := m2 },
       { status := 429,
         headers := [],
         detail := some
           { error := "Rate limit exceeded",
             limit := rl1.requestsPerMinute,
             window := "1 minute",
             message := "Too many requests. Maximum " ++ toString rl1.requestsPerMinute
               ++ " requests per minute allowed." } },
       .denied)
    else
      let ts' := ts ++ [now]
      let m3 := alSet m2 ip ts'
      let hs1 := setHeader base.headers "X-RateLimit-Limit" (toString rl1.requestsPerMinute)
      let hs2 := setHeader hs1 "X-RateLimit-Remaining"
        (toString (rl1.requestsPerMinute - ts'.length : Nat))
      let hs3 := setHeader hs2 "X-RateLimit-Reset" (toString (now + rl1.windowSize))
      ({ rl1 with requestTimestamps := m3 },
       { base with headers := hs3 },
       .admitted)

/-- Repeated dispatching of the same request at the same time, returning the
final state and the list of classifications in order. -/
def iterateDispatch (req : Request) (now : Int) (base : HttpResp) :
    RateLimiter → Nat → RateLimiter × List DispatchKind
  | rl, 0 => (rl, [])
  | rl, n + 1 =>
    let r := dispatch rl req now base
    let rest := iterateDispatch req now base r.1 n
    (rest.1, r.2.2 :: rest.2)

/-! ## OpenMetadata provider (`app/services/openmetadata_provider.py`) -/

/-- Outcome of one `requests.get` against the catalog's
`/tables/name/{fqn}` endpoint, as `_fetch_table_columns` observes it: a
response with a status code and the column names parsed from the body
(`[col["name"] for col in data.get("columns", [])]`, meaningful for 200s),
or a raised exception (timeout, connection error, malformed body). -/
inductive FetchResult
  | resp (status : Nat) (columns : List String)
  | exn
deriving Repr, DecidableEq

/-- The catalog service, modelled as a fixed map from fully-qualified name
to the outcome of requesting that name. -/
def Catalog : Type := String → FetchResult

/-- The FQN candidates tried by `_fetch_table_columns`, in order:
`f"{schema}.{table}"` first, bare `table` second. -/
def fqnPatterns (schema table : String) : List String :=
  [schema ++ "." ++ table, table]

/-- The candidate loop of `_fetch_table_columns`: a 200 response with a
non-empty parsed column list returns those columns; a 200 with an empty
list, any other status (404 silently, others after a warning log) and any
raised exception all fall through to the next candidate; when the
candidates are exhausted the function logs a warning and returns `[]`. -/
def fetchLoop (catalog : Catalog) : List String → List String
  | [] => []
  | fqn :: rest =>
    match catalog fqn with
    | .exn => fetchLoop catalog rest
    | .resp status cols =>
      if status = 200 then
        if cols = [] then fetchLoop catalog rest else cols
      else fetchLoop catalog rest

/-- `OpenMetadataProvider._fetch_table_columns`. -/
def fetchTableColumns (catalog : Catalog) (schema table : String) : List String :=
  fetchLoop catalog (fqnPatterns schema table)

/-- State of `OpenMetadataProvider`: the cache TTL, the connectivity flag
set once by `_test_connection`, and the cache mapping `f"{schema}.{table}"`
keys to `(columns, fetch_timestamp)` pairs. -/
structure OpenMetadataProvider where
  cacheTtl : Int
  connected : Bool
  cache : List (String × (List String × Int))
deriving Repr, DecidableEq

/-- `OpenMetadataProvider._get_table_columns`.  Returns the column list,
the provider state after the call, and whether an outbound catalog fetch
was performed.  Mirrors the source: a disconnected provider returns `[]`
with no I/O; a cache entry younger than the TTL is returned as-is; in every
other case `_fetch_table_columns` runs and its result — including an empty
list when every candidate failed, since `_fetch_table_columns` returns `[]`
rather than raising in that case — is written to the cache with the current
timestamp.  (The `except` branch of the source, which skips the cache
write, is reachable only if `_fetch_table_columns` raises, and that
function catches all per-candidate exceptions internally.) -/
def getTableColumns (p : OpenMetadataProvider) (catalog : Catalog) (now : Int)
    (schema table : String) : List String × OpenMetadataProvider × Bool :=
  if p.connected = false then
    ([], p, false)
  else
    let cacheKey := schema ++ "." ++ table
    let cached : Option (List String) :=
      match alLookup p.cache cacheKey with
      | some (cols, timestamp) =>
        if now - timestamp < p.cacheTtl then some cols else none
      | none => none
    match cached with
    | some cols => (cols, p, false)
    | none =>
      let cols := fetchTableColumns catalog schema table
      (cols, { p with cache := alSet p.cache cacheKey (cols, now) }, true)

/-- `OpenMetadataProvider.clear_cache`. -/
def clearCache (p : OpenMetadataProvider) : OpenMetadataProvider :=
  { p with cache := [] }

/-! ## Lineage projector (`app/services/lineage_service.py`)

The graph node types (`Table`, `SubQuery`, `Column` from
`sqllineage.core.models`) live outside `service/`. -/

/-- Modelled from the spec: a table node — "a table (itself optionally
qualified by a schema)", where "the sentinel qualifier value `<default>`
means no explicit schema".  `schema` is `none` when the table carries no
schema object at all (a falsy `parent.schema` in the source's truthiness
test) and `some "<default>"` for the sentinel. -/
structure Table where
  rawName : String
  schema : Option String
deriving Repr, DecidableEq

/-- Modelled from the spec: the optional parent of a column node — "one of:
a table ..., a named subquery/CTE (identified by alias), or unknown/none",
plus the source's fallback branch for "Path or other types", carried as its
stringified form. -/
inductive ColumnParent
  | noParent
  | table (t : Table)
  | subquery (aliasName : String)
  | other (stringified : String)
deriving Repr, DecidableEq

/-- Modelled from the spec: a column node — "nodes are columns; each column
has an optional parent".  Distinct structures are distinct graph nodes
(and distinct `dict` keys). -/
structure Column where
  rawName : String
  parent : ColumnParent
deriving Repr, DecidableEq

/-- The `format_column` helper, defined identically inside
`_extract_column_pairs` and `_extract_column_lineage_paths`: no parent →
bare name; table parent → `schema.table.column` when the schema is present
and its raw name is not `"<default>"`, else `table.column`; subquery parent
→ `alias.column`; any other parent → stringified parent `.` column. -/
def format_column (col : Column) : String :=
  match col.parent with
  | .noParent => col.rawName
  | .table t =>
    match t.schema with
    | some s =>
      if s ≠ "<default>" then s ++ "." ++ t.rawName ++ "." ++ col.rawName
      else t.rawName ++ "." ++ col.rawName
    | none => t.rawName ++ "." ++ col.rawName
  | .subquery aliasName => aliasName ++ "." ++ col.rawName
  | .other stringified => stringified ++ "." ++ col.rawName

/-- Association-list lookup keyed by `Column`. -/
def cmLookup : List (Column × List Column) → Column → Option (List Column)
  | [], _ => none
  | (k, v) :: rest, key => if k = key then some v else cmLookup rest key

/-- `lineage_map[target].append(source)` on a `defaultdict(list)`: append
to the existing bucket, or add a new key at the end (insertion order). -/
def cmAppend : List (Column × List Column) → Column → Column → List (Column × List Column)
  | [], target, source => [(target, [source])]
  | (k, vs) :: rest, target, source =>
    if k = target then (k, vs ++ [source]) :: rest
    else (k, vs) :: cmAppend rest target source

/-- The source/target selection for one full path: `path[-2], path[-1]`
when the path has at least two nodes, `path[0], path[-1]` otherwise — for a
single node that is the node twice, and for an empty path `path[0]` raises
`IndexError` (`none` here). -/
def pathEnds (p : List Column) : Option (Column × Column) :=
  match p.reverse with
  | [] => none
  | [c] => some (c, c)
  | target :: source :: _ => some (source, target)

/-- The grouping loop of `_extract_column_pairs`: fold the paths into the
target-keyed map; an empty path raises inside the `try` block, which
aborts the loop (keeping the entries accumulated so far) and appends a
warning.  Returns the map and whether the warning was appended. -/
def buildLineageMap : List (Column × List Column) → List (List Column) →
    List (Column × List Column) × Bool
  | acc, [] => (acc, false)
  | acc, p :: rest =>
    match pathEnds p with
    | none => (acc, true)
    | some (source, target) => buildLineageMap (cmAppend acc target source) rest

/-- Stable insertion into an ascending list: the new element is placed
before the first element whose key is not strictly below its own, so an
element coming earlier in the input stays before later elements with an
equal key. -/
def stableInsertBy {α : Type} (key : α → String) (x : α) : List α → List α
  | [] => [x]
  | y :: ys => if key y < key x then y :: stableInsertBy key x ys else x :: y :: ys

/-- Stable ascending insertion sort by a string key (the input/output
behaviour of Python's stable `sorted(xs, key=...)`). -/
def stableSortBy {α : Type} (key : α → String) : List α → List α
  | [] => []
  | x :: xs => stableInsertBy key x (stableSortBy key xs)

/-- One entry of the column-pairs view. -/
structure ColumnPair where
  target : String
  sources : List String
deriving Repr, DecidableEq

/-- `_extract_column_pairs` applied to the full paths reported by the
runner: build the target-keyed map (possibly stopping early with a warning
on a malformed path), then emit one `ColumnPair` per key in ascending order
of the rendered target string.  Returns the pairs and whether the
extraction warning was appended. -/
def extractColumnPairs (paths : List (List Column)) : List ColumnPair × Bool :=
  let mw := buildLineageMap [] paths
  let sortedKeys := stableSortBy format_column ((mw.1).map Prod.fst)
  (sortedKeys.map (fun target =>
    { target := format_column target,
      sources := ((cmLookup mw.1 target).getD []).map format_column }),
   mw.2)

/-- One rendered table of the table-lineage view: the schema slot is
`none` when the table has no schema or the `"<default>"` sentinel. -/
structure TableLineageItem where
  schema : Option String
  table : String
deriving Repr, DecidableEq

/-- The per-table rendering inside `_extract_table_lineage`. -/
def renderTableItem (t : Table) : TableLineageItem :=
  match t.schema with
  | some s =>
    if s ≠ "<default>" then { schema := some s, table := t.rawName }
    else { schema := none, table := t.rawName }
  | none => { schema := none, table := t.rawName }

/-- `_extract_table_lineage`: render the runner's source and target table
lists.  (Its `try` block can only be aborted by the external runner's
accessors; the rendering itself is total.) -/
def extractTableLineage (sourceTables targetTables : List Table) :
    List TableLineageItem × List TableLineageItem :=
  (sourceTables.map renderTableItem, targetTables.map renderTableItem)

/-- One entry of the full-paths view. -/
structure ColumnLineagePath where
  path : List String
deriving Repr, DecidableEq

/-- `_extract_column_lineage_paths`: render every full path node by node.
An empty path raises nothing here — the comprehension over it yields an
empty rendered path — so the loop runs to completion for any path list. -/
def extractColumnLineagePaths (paths : List (List Column)) : List ColumnLineagePath :=
  paths.map (fun p => { path := p.map format_column })

/-! ## Service responses (`LineageService.get_*` in
`app/services/lineage_service.py`) -/

/-- What the external `LineageRunner` exposes to the three extraction
methods once constructed: the full column paths and the source/target table
sets.  The runner itself is out of scope; its output shape is taken from
the spec's graph description. -/
structure RunnerGraph where
  paths : List (List Column)
  sourceTables : List Table
  targetTables : List Table
deriving Repr, DecidableEq

/-- Python `str.split(sep)` for a one-character separator, on the
character list: every occurrence of the separator starts a new segment, so
`"a;;b"` gives three segments and `""` gives one empty segment.  (The
`[] => [[x]]` branch is unreachable — the recursion never returns an empty
segment list — and only keeps the match total.) -/
def splitOnChar (c : Char) : List Char → List (List Char)
  | [] => [[]]
  | x :: xs =>
    match splitOnChar c xs with
    | [] => [[x]]
    | h :: t => if x = c then [] :: h :: t else (x :: h) :: t

/-- Python `str.strip()`: drop whitespace from both ends. -/
def trimChars (cs : List Char) : List Char :=
  ((cs.dropWhile Char.isWhitespace).reverse.dropWhile Char.isWhitespace).reverse

/-- The statement counting in `_create_runner`:
`[s.strip() for s in self.sql.split(";") if s.strip()]` — the number of
segments between semicolons that are not pure whitespace, modelled on the
SQL text's character list. -/
def countStatements (sql : String) : Nat :=
  (((splitOnChar ';' sql.data).map trimChars).filter (fun cs => cs ≠ [])).length

/-- Response metadata (the wall-clock `processing_time_ms` field is not
modelled). -/
structure LineageMetadata where
  dialectUsed : String
  statementCount : Nat
  successfulStatements : Nat
  failedStatements : Nat
deriving Repr, DecidableEq

/-- `LineageService.get_column_pairs` response shape. -/
structure ColumnPairsResponse where
  columnPairs : List ColumnPair
  warnings : List String
  metadata : LineageMetadata
deriving Repr, DecidableEq

/-- `LineageService.get_table_lineage` response shape. -/
structure TableLineageResponse where
  sourceTables : List TableLineageItem
  targetTables : List TableLineageItem
  warnings : List String
  metadata : LineageMetadata
deriving Repr, DecidableEq

/-- `LineageService.get_column_lineage` response shape. -/
structure ColumnLineageResponse where
  columnLineagePaths : List ColumnLineagePath
  warnings : List String
  metadata : LineageMetadata
deriving Repr, DecidableEq

/-- The warning string appended by `_extract_column_pairs` on a malformed
path (`f"Column lineage extraction warning: {str(e)}"`; the embedded
exception text is the Python `IndexError` message). -/
def columnPairsWarning : String :=
  "Column lineage extraction warning: list index out of range"

/-- The outcome of `LineageRunner(...)` construction: the graph, or the
exception message `e` of a construction failure.  `_create_runner` counts
statements first, then on success sets `successful = count, failed = 0`,
and on failure appends `f"Parsing error: {e}"`, sets `failed = count,
successful = 0` and re-raises, which the `get_*` caller catches, appending
`f"Error processing lineage: {e}"` and building an error response with
`successful = 0, failed = count`. -/
def RunnerOutcome : Type := Except String RunnerGraph

/-- The metadata block for a successful `_create_runner`. -/
def okMetadata (dialect : String) (n : Nat) : LineageMetadata :=
  { dialectUsed := dialect, statementCount := n,
    successfulStatements := n, failedStatements := 0 }

/-- The metadata block of the `except` branch of the three `get_*`
methods: `successful_statements=0, failed_statements=self.statement_count`. -/
def errMetadata (dialect : String) (n : Nat) : LineageMetadata :=
  { dialectUsed := dialect, statementCount := n,
    successfulStatements := 0, failedStatements := n }

/-- The warnings accumulated on a construction failure with message `e`. -/
def parseFailureWarnings (e : String) : List String :=
  ["Parsing error: " ++ e, "Error processing lineage: " ++ e]

/-- `LineageService.get_column_pairs`. -/
def get_column_pairs (sql dialect : String) (runner : RunnerOutcome) : ColumnPairsResponse :=
  let n := countStatements sql
  match runner with
  | .error e =>
    { columnPairs := [], warnings := parseFailureWarnings e,
      metadata := errMetadata dialect n }
  | .ok g =>
    let pw := extractColumnPairs g.paths
    { columnPairs := pw.1,
      warnings := if pw.2 then [columnPairsWarning] else [],
      metadata := okMetadata dialect n }

/-- `LineageService.get_table_lineage`. -/
def get_table_lineage (sql dialect : String) (runner : RunnerOutcome) : TableLineageResponse :=
  let n := countStatements sql
  match runner with
  | .error e =>
    { sourceTables := [], targetTables := [], warnings := parseFailureWarnings e,
      metadata := errMetadata dialect n }
  | .ok g =>
    let st := extractTableLineage g.sourceTables g.targetTables
    { sourceTables := st.1, targetTables := st.2, warnings := [],
      metadata := okMetadata dialect n }

/-- `LineageService.get_column_lineage`. -/
def get_column_lineage (sql dialect : String) (runner : RunnerOutcome) : ColumnLineageResponse :=
  let n := countStatements sql
  match runner with
  | .error e =>
    { columnLineagePaths := [], warnings := parseFailureWarnings e,
      metadata := errMetadata dialect n }
  | .ok g =>
    { columnLineagePaths := extractColumnLineagePaths g.paths, warnings := [],
      metadata := okMetadata dialect n }

/-! ## Specification-side auxiliary definitions, used only to state
properties and compare them against the embedded code. -/

/-- The spec's description of a column-pairs bucket: the second-to-last
node of every full path ending at target `t` (the node itself for a
single-node path), in path order. -/
def immediateSources (paths : List (List Column)) (t : Column) : List Column :=
  ((paths.filterMap pathEnds).filter (fun e => e.2 = t)).map Prod.fst

/-- A possibly-empty list as an optional map entry: `none` when empty
(used to describe `defaultdict` buckets and pruned timestamp records). -/
def optList {α : Type} [DecidableEq α] (l : List α) : Option (List α) :=
  if l = [] then none else some l

/-- Joining a `defaultdict(list)` bucket state with the sources a suffix
of paths contributes: an absent bucket stays absent when nothing is added. -/
def bucketJoin (o : Option (List Column)) (l : List Column) : Option (List Column) :=
  match o with
  | none => optList l
  | some v => some (v ++ l)

/-- The timestamp map reached after `j` admitted requests from identity
`ip`, all at time `t`, starting from an empty map. -/
def repMap (ip : String) (t : Int) : Nat → List (String × List Int)
  | 0 => []
  | j + 1 => [(ip, List.replicate (j + 1) t)]

/-- A catalog knowing the bare table name `"t"` only (and erroring on any
other FQN). -/
def catalogBareOnly : Catalog :=
  fun fqn => if fqn = "t" then .resp 200 ["a", "b"] else .exn

/-- A catalog answering 404 to everything. -/
def catalogNotFound : Catalog := fun _ => .resp 404 []

/-- A catalog answering 200 with a fixed column list to everything. -/
def catalogConst (cols : List String) : Catalog := fun _ => .resp 200 cols

end SqlLineageService

namespace SqlLineageService

/-! ## Shared lemmas -/

theorem alLookup_alSet_self {β : Type} (m : List (String × β)) (k : String) (v : β) :
    alLookup (alSet m k v) k = some v := by
  induction m with
  | nil => simp [alSet, alLookup]
  | cons p rest ih =>
    obtain ⟨a, b⟩ := p
    by_cases h : a = k
    · simp [alSet, alLookup, h]
    · simp [alSet, alLookup, h, ih]

/-! ## C9: column rendering rule -/

/-- C9: `format_column` renders a parentless column as its bare name; a
table parent as `schema.table.column` when the schema is present and not
the `"<default>"` sentinel and as `table.column` otherwise (in particular a
`"<default>"` schema never appears in the output); a subquery parent as
`alias.column`; any other parent as its stringified form followed by
`.column`. -/
theorem c9_format_column_rule (name tbl sq fb sch : String) :
    format_column ⟨name, .noParent⟩ = name
    ∧ format_column ⟨name, .table ⟨tbl, none⟩⟩ = tbl ++ "." ++ name
    ∧ format_column ⟨name, .table ⟨tbl, some "<default>"⟩⟩ = tbl ++ "." ++ name
    ∧ (sch ≠ "<default>" →
        format_column ⟨name, .table ⟨tbl, some sch⟩⟩ = sch ++ "." ++ tbl ++ "." ++ name)
    ∧ format_column ⟨name, .subquery sq⟩ = sq ++ "." ++ name
    ∧ format_column ⟨name, .other fb⟩ = fb ++ "." ++ name := by
  refine ⟨rfl, rfl, by simp [format_column], fun h => by simp [format_column, h], rfl, rfl⟩

/-- Witness for C9 at concrete names: a real schema is kept, the
`"<default>"` sentinel is dropped. -/
theorem c9_format_column_rule_witness :
    format_column ⟨"c", .table ⟨"t", some "sch"⟩⟩ = "sch.t.c"
    ∧ format_column ⟨"c", .table ⟨"t", some "<default>"⟩⟩ = "t.c" := by
  have h := c9_format_column_rule "c" "t" "q" "p" "sch"
  exact ⟨(h.2.2.2.1 (by decide)).trans (by decide), h.2.2.1.trans (by decide)⟩

/-! ## C7: FQN fallback order -/

/-- C7: for a connected provider and a locator with no valid cache entry,
the fetch tries `"{schema}.{table}"` first and bare `"{table}"` second;
a first candidate answering 200 with a non-empty column list wins, and when
the first candidate yields no columns (empty 200, non-200 status, or a
raised error) but the bare name yields a non-empty 200, the bare-name
columns are returned. -/
theorem c7_fetch_fallback_order (p : OpenMetadataProvider) (catalog : Catalog)
    (now : Int) (schema table : String)
    (hconn : p.connected = true)
    (hmiss : ∀ cols ts, alLookup p.cache (schema ++ "." ++ table) = some (cols, ts) →
      p.cacheTtl ≤ now - ts) :
    fqnPatterns schema table = [schema ++ "." ++ table, table]
    ∧ (∀ cols1, catalog (schema ++ "." ++ table) = .resp 200 cols1 → cols1 ≠ [] →
        (getTableColumns p catalog now schema table).1 = cols1)
    ∧ ((∀ cols1, catalog (schema ++ "." ++ table) = .resp 200 cols1 → cols1 = []) →
       ∀ cols2, catalog table = .resp 200 cols2 → cols2 ≠ [] →
        (getTableColumns p catalog now schema table).1 = cols2) := by
  have hres : (getTableColumns p catalog now schema table).1
      = fetchTableColumns catalog schema table := by
    rcases hl : alLookup p.cache (schema ++ "." ++ table) with _ | ⟨cols, ts⟩
    · simp [getTableColumns, hconn, hl]
    · have hstale := hmiss cols ts hl
      simp [getTableColumns, hconn, hl, not_lt.mpr hstale]
  refine ⟨rfl, ?_, ?_⟩
  · intro cols1 h1 hne
    rw [hres]
    unfold fetchTableColumns fqnPatterns
    simp [fetchLoop, h1, hne]
  · intro hempty cols2 h2 hne
    rw [hres]
    unfold fetchTableColumns fqnPatterns
    cases hc : catalog (schema ++ "." ++ table) with
    | resp st cols =>
      by_cases hst : st = 200
      · have : cols = [] := hempty cols (by rw [hc, hst])
        simp [fetchLoop, hc, hst, this, h2, hne]
      · simp [fetchLoop, hc, hst, h2, hne]
    | exn => simp [fetchLoop, hc, h2, hne]

/-- Witness for C7: schema-qualified lookup errors, the bare name
succeeds, and its columns are returned. -/
theorem c7_fetch_fallback_order_witness :
    (getTableColumns ⟨300, true, []⟩ catalogBareOnly 0 "s" "t").1 = ["a", "b"] := by
  have h := c7_fetch_fallback_order ⟨300, true, []⟩ catalogBareOnly 0 "s" "t" rfl
    (by intro cols ts hl; simp [alLookup] at hl)
  refine h.2.2 ?_ ["a", "b"] (by decide) (by decide)
  intro cols1 h1
  rw [show catalogBareOnly ("s" ++ "." ++ "t") = .exn by decide] at h1
  cases h1

/-! ## C8: cache TTL idempotence -/

/-- C8: for a fixed catalog, two lookups of the same locator separated by
less than `cache_ttl` seconds perform at most one outbound fetch between
them; and a lookup on a connected provider whose cached entry for the
locator is at least `cache_ttl` old performs a new fetch. -/
theorem c8_cache_ttl (p : OpenMetadataProvider) (catalog : Catalog)
    (now1 now2 : Int) (schema table : String)
    (hgap : now2 - now1 < p.cacheTtl) :
    (¬((getTableColumns p catalog now1 schema table).2.2 = true ∧
       (getTableColumns (getTableColumns p catalog now1 schema table).2.1
          catalog now2 schema table).2.2 = true))
    ∧ (∀ cols ts, p.connected = true →
        alLookup p.cache (schema ++ "." ++ table) = some (cols, ts) →
        p.cacheTtl ≤ now2 - ts →
        (getTableColumns p catalog now2 schema table).2.2 = true) := by
  constructor
  · rintro ⟨hf1, hf2⟩
    cases hcn : p.connected with
    | false => simp [getTableColumns, hcn] at hf1
    | true =>
      rcases hl : alLookup p.cache (schema ++ "." ++ table) with _ | ⟨cols, ts⟩
      · -- first call misses and fetches; second call hits the fresh entry
        have hstate : (getTableColumns p catalog now1 schema table).2.1
            = OpenMetadataProvider.mk p.cacheTtl p.connected
                (alSet p.cache (schema ++ "." ++ table)
                  (fetchTableColumns catalog schema table, now1)) := by
          simp [getTableColumns, hcn, hl]
        rw [hstate] at hf2
        simp [getTableColumns, hcn, alLookup_alSet_self, hgap] at hf2
      · by_cases hfresh : now1 - ts < p.cacheTtl
        · simp [getTableColumns, hcn, hl, hfresh] at hf1
        · have hstate : (getTableColumns p catalog now1 schema table).2.1
              = OpenMetadataProvider.mk p.cacheTtl p.connected
                  (alSet p.cache (schema ++ "." ++ table)
                    (fetchTableColumns catalog schema table, now1)) := by
            simp [getTableColumns, hcn, hl, hfresh]
          rw [hstate] at hf2
          simp [getTableColumns, hcn, alLookup_alSet_self, hgap] at hf2
  · intro cols ts hcn hl hstale
    simp [getTableColumns, hcn, hl, not_lt.mpr hstale]

/-- Witness for C8: a miss-then-hit pair of calls 10 seconds apart under a
300-second TTL. -/
theorem c8_cache_ttl_witness :
    ¬((getTableColumns ⟨300, true, []⟩ (catalogConst ["a"]) 0 "s" "t").2.2 = true ∧
      (getTableColumns (getTableColumns ⟨300, true, []⟩ (catalogConst ["a"]) 0 "s" "t").2.1
         (catalogConst ["a"]) 10 "s" "t").2.2 = true) :=
  (c8_cache_ttl ⟨300, true, []⟩ (catalogConst ["a"]) 0 10 "s" "t" (by decide)).1

/-! ## C1: negative results and the cache -/

/-- C1 counterexample: with a connected provider, an empty cache and a
catalog answering 404 to every candidate, the lookup returns `[]` but a
cache entry `([], now)` IS written, and a second lookup 10 seconds later is
served from that cached negative entry without fetching — the claim's
"leaves the cache unchanged" and "re-attempts the remote fetch" are both
false on this input. -/
theorem c1_counterexample :
    (getTableColumns ⟨300, true, []⟩ catalogNotFound 0 "s" "t").1 = []
    ∧ alLookup (OpenMetadataProvider.mk 300 true []).cache "s.t" = none
    ∧ alLookup (getTableColumns ⟨300, true, []⟩ catalogNotFound 0 "s" "t").2.1.cache "s.t"
        = some ([], 0)
    ∧ (getTableColumns (getTableColumns ⟨300, true, []⟩ catalogNotFound 0 "s" "t").2.1
         catalogNotFound 10 "s" "t").2.2 = false := by
  refine ⟨by decide, by decide, by decide, by decide⟩

/-- C1 amended: when the connectivity flag is true and every candidate
fails to yield a non-empty column list, the lookup returns an empty list
but DOES write the cache entry `([], now)` for the locator, so a
subsequent call within `cache_ttl` is served the cached negative result
with no new fetch. -/
theorem c1_amended (p : OpenMetadataProvider) (catalog : Catalog) (now now2 : Int)
    (schema table : String)
    (hconn : p.connected = true)
    (hmiss : ∀ cols ts, alLookup p.cache (schema ++ "." ++ table) = some (cols, ts) →
      p.cacheTtl ≤ now - ts)
    (hfail1 : ∀ cols, catalog (schema ++ "." ++ table) = .resp 200 cols → cols = [])
    (hfail2 : ∀ cols, catalog table = .resp 200 cols → cols = [])
    (hgap : now2 - now < p.cacheTtl) :
    (getTableColumns p catalog now schema table).1 = []
    ∧ alLookup (getTableColumns p catalog now schema table).2.1.cache
        (schema ++ "." ++ table) = some ([], now)
    ∧ getTableColumns (getTableColumns p catalog now schema table).2.1 catalog now2 schema table
        = ([], (getTableColumns p catalog now schema table).2.1, false) := by
  have hsnd : fetchLoop catalog [table] = [] := by
    cases hc : catalog table with
    | resp st cols =>
      by_cases hst : st = 200
      · have : cols = [] := hfail2 cols (by rw [hc, hst])
        simp [fetchLoop, hc, hst, this]
      · simp [fetchLoop, hc, hst]
    | exn => simp [fetchLoop, hc]
  have hfetch : fetchTableColumns catalog schema table = [] := by
    unfold fetchTableColumns fqnPatterns
    cases hc : catalog (schema ++ "." ++ table) with
    | resp st cols =>
      by_cases hst : st = 200
      · have : cols = [] := hfail1 cols (by rw [hc, hst])
        simp only [fetchLoop, hc, hst, this, if_true, if_pos]
        exact hsnd
      · simp only [fetchLoop, hc, if_neg hst]
        exact hsnd
    | exn =>
      simp only [fetchLoop, hc]
      exact hsnd
  have hmiss' : ∀ cols ts, alLookup p.cache (schema ++ "." ++ table) = some (cols, ts) →
      ¬(now - ts < p.cacheTtl) := fun cols ts hl => not_lt.mpr (hmiss cols ts hl)
  have hstate : getTableColumns p catalog now schema table
      = ([], { p with cache := alSet p.cache (schema ++ "." ++ table) ([], now) }, true) := by
    rcases hl : alLookup p.cache (schema ++ "." ++ table) with _ | ⟨cols, ts⟩
    · simp [getTableColumns, hconn, hl, hfetch]
    · simp [getTableColumns, hconn, hl, hmiss' cols ts hl, hfetch]
  rw [hstate]
  refine ⟨rfl, alLookup_alSet_self _ _ _, ?_⟩
  simp [getTableColumns, hconn, alLookup_alSet_self, hgap]

/-! ## Rate limiter lemmas -/

theorem alLookup_eq_none_of_not_mem {β : Type} (m : List (String × β)) (k : String)
    (h : k ∉ m.map Prod.fst) : alLookup m k = none := by
  induction m with
  | nil => rfl
  | cons p rest ih =>
    obtain ⟨a, b⟩ := p
    simp only [List.map_cons, List.mem_cons, not_or] at h
    have hak : ¬ a = k := fun hk => h.1 hk.symm
    simp [alLookup, hak, ih h.2]

theorem alLookup_alErase_self {β : Type} (m : List (String × β)) (k : String)
    (h : (m.map Prod.fst).Nodup) : alLookup (alErase m k) k = none := by
  induction m with
  | nil => rfl
  | cons p rest ih =>
    obtain ⟨a, b⟩ := p
    simp only [List.map_cons, List.nodup_cons] at h
    by_cases hk : a = k
    · subst hk
      simp only [alErase, if_pos rfl]
      exact alLookup_eq_none_of_not_mem rest a h.1
    · simp [alErase, hk, alLookup, ih h.2]

theorem clean_requestsPerMinute (rl : RateLimiter) (ip : String) (now : Int) :
    (cleanOldTimestamps rl ip now).requestsPerMinute = rl.requestsPerMinute := by
  by_cases h : (rl.entry ip).dropWhile (fun t => t < now - rl.windowSize) = [] <;>
    simp [cleanOldTimestamps, h]

theorem clean_windowSize (rl : RateLimiter) (ip : String) (now : Int) :
    (cleanOldTimestamps rl ip now).windowSize = rl.windowSize := by
  by_cases h : (rl.entry ip).dropWhile (fun t => t < now - rl.windowSize) = [] <;>
    simp [cleanOldTimestamps, h]

/-- Every timestamp surviving the front prune of a sorted record is at
least the cutoff. -/
theorem dropWhile_lt_bound (c : Int) (l : List Int) (h : l.Pairwise (· ≤ ·)) :
    ∀ x ∈ l.dropWhile (fun t => t < c), c ≤ x := by
  induction l with
  | nil => simp
  | cons a l ih =>
    rw [List.pairwise_cons] at h
    rw [List.dropWhile_cons]
    by_cases ha : a < c
    · simp only [decide_eq_true_eq, if_pos ha]
      exact ih h.2
    · simp only [decide_eq_true_eq, if_neg ha]
      intro x hx
      rcases List.mem_cons.mp hx with rfl | hx
      · exact not_lt.mp ha
      · exact le_trans (not_lt.mp ha) (h.1 x hx)

theorem mapFst_replace_eq {v k : String} (hs : List (String × String)) :
    (hs.map (fun p => if p.1 = k then (p.1, v) else p)).map Prod.fst = hs.map Prod.fst := by
  rw [List.map_map]
  apply List.map_congr_left
  intro p _
  by_cases hp : p.1 = k <;> simp [hp]

theorem mem_setHeader_self (hs : List (String × String)) (k v : String) :
    k ∈ (setHeader hs k v).map Prod.fst := by
  by_cases h : ((hs.map Prod.fst).contains k) = true
  · simp only [setHeader, h, if_true]
    rw [mapFst_replace_eq]
    exact List.elem_iff.mp h
  · unfold setHeader
    rw [if_neg h]
    simp

theorem mem_setHeader_mono (hs : List (String × String)) (k k' v : String)
    (h : k ∈ hs.map Prod.fst) : k ∈ (setHeader hs k' v).map Prod.fst := by
  by_cases hc : ((hs.map Prod.fst).contains k') = true
  · simp only [setHeader, hc, if_true]
    rw [mapFst_replace_eq]
    exact h
  · unfold setHeader
    rw [if_neg hc]
    simp [h]

/-- `cleanOldTimestamps` keeps an empty map empty. -/
theorem clean_repMap0 (L : Nat) (ip : String) (t : Int) :
    cleanOldTimestamps ⟨L, 60, []⟩ ip t = ⟨L, 60, []⟩ := by
  simp [cleanOldTimestamps, RateLimiter.entry, alLookup, alErase]

/-- `cleanOldTimestamps` keeps a record of fresh timestamps unchanged. -/
theorem clean_repMapS (L j : Nat) (ip : String) (t : Int) :
    cleanOldTimestamps ⟨L, 60, [(ip, List.replicate (j + 1) t)]⟩ ip t
      = ⟨L, 60, [(ip, List.replicate (j + 1) t)]⟩ := by
  have hne : ¬ (t < t - 60) := by omega
  simp [cleanOldTimestamps, RateLimiter.entry, alLookup, List.replicate_succ,
    List.dropWhile_cons_of_neg, hne, alSet]

/-- First admitted step of the scenario, from an empty map. -/
theorem dispatch_adm0 (L : Nat) (ip : String) (t : Int) (base : HttpResp)
    (h : 0 < L) :
    (dispatch ⟨L, 60, []⟩ ⟨"/api", none, some ip⟩ t base).1 = ⟨L, 60, [(ip, [t])]⟩
    ∧ (dispatch ⟨L, 60, []⟩ ⟨"/api", none, some ip⟩ t base).2.2 = DispatchKind.admitted := by
  have hpath : ¬(("/api" : String) = "/health") := by decide
  have hip : getClientIp ⟨"/api", none, some ip⟩ = ip := rfl
  have hL0 : ¬ (L = 0) := by omega
  constructor <;>
    simp [dispatch, hpath, hip, clean_repMap0, alLookup, alSet, hL0]

/-- Later admitted steps of the scenario: below the limit, dispatching
appends one timestamp and reports `admitted`. -/
theorem dispatch_admS (L j : Nat) (ip : String) (t : Int) (base : HttpResp)
    (h : j + 1 < L) :
    (dispatch ⟨L, 60, [(ip, List.replicate (j + 1) t)]⟩ ⟨"/api", none, some ip⟩ t base).1
      = ⟨L, 60, [(ip, List.replicate (j + 2) t)]⟩
    ∧ (dispatch ⟨L, 60, [(ip, List.replicate (j + 1) t)]⟩ ⟨"/api", none, some ip⟩ t base).2.2
      = DispatchKind.admitted := by
  have hpath : ¬(("/api" : String) = "/health") := by decide
  have hip : getClientIp ⟨"/api", none, some ip⟩ = ip := rfl
  have hL : ¬ (L ≤ j + 1) := by omega
  have hrep : List.replicate (j + 1) t ++ [t] = List.replicate (j + 2) t :=
    (List.replicate_succ' (j + 1) t).symm
  constructor <;>
    simp [dispatch, hpath, hip, clean_repMapS, alLookup, alSet, hL, hrep]

/-- The over-limit step of the scenario with limit zero. -/
theorem dispatch_den0 (ip : String) (t : Int) (base : HttpResp) :
    (dispatch ⟨0, 60, []⟩ ⟨"/api", none, some ip⟩ t base).2.2 = DispatchKind.denied := by
  have hpath : ¬(("/api" : String) = "/health") := by decide
  have hip : getClientIp ⟨"/api", none, some ip⟩ = ip := rfl
  simp [dispatch, hpath, hip, clean_repMap0, alLookup, alSet]

/-- The over-limit step of the scenario: at the limit, dispatching denies. -/
theorem dispatch_denS (j : Nat) (ip : String) (t : Int) (base : HttpResp) :
    (dispatch ⟨j + 1, 60, [(ip, List.replicate (j + 1) t)]⟩ ⟨"/api", none, some ip⟩ t base).2.2
      = DispatchKind.denied := by
  have hpath : ¬(("/api" : String) = "/health") := by decide
  have hip : getClientIp ⟨"/api", none, some ip⟩ = ip := rfl
  simp [dispatch, hpath, hip, clean_repMapS, alLookup, alSet]

/-- Unfolding one step of `iterateDispatch`. -/
theorem iterateDispatch_succ (req : Request) (now : Int) (base : HttpResp)
    (rl : RateLimiter) (n : Nat) :
    iterateDispatch req now base rl (n + 1)
      = ((iterateDispatch req now base (dispatch rl req now base).1 n).1,
         (dispatch rl req now base).2.2
           :: (iterateDispatch req now base (dispatch rl req now base).1 n).2) := rfl

/-- The scenario outcomes: from `j` admitted timestamps with `j + n = L`,
the next `n` requests are admitted and the one after that is denied. -/
theorem iterate_repMap (L : Nat) (ip : String) (t : Int) (base : HttpResp) :
    ∀ n j, j + n = L →
    (iterateDispatch ⟨"/api", none, some ip⟩ t base ⟨L, 60, repMap ip t j⟩ (n + 1)).2
      = List.replicate n DispatchKind.admitted ++ [DispatchKind.denied] := by
  intro n
  induction n with
  | zero =>
    intro j hj
    have hj' : j = L := by omega
    subst hj'
    cases j with
    | zero => simp [iterateDispatch, repMap, dispatch_den0]
    | succ k => simp [iterateDispatch, repMap, dispatch_denS]
  | succ n ih =>
    intro j hj
    have hrec := ih (j + 1) (by omega)
    cases j with
    | zero =>
      have hadm := dispatch_adm0 L ip t base (by omega)
      rw [show repMap ip t 0 = [] from rfl]
      rw [iterateDispatch_succ]
      dsimp only
      rw [hadm.1, hadm.2]
      rw [show repMap ip t (0 + 1) = [(ip, [t])] from by simp [repMap]] at hrec
      rw [hrec]
      simp [List.replicate_succ]
    | succ k =>
      have hadm := dispatch_admS L k ip t base (by omega)
      rw [show repMap ip t (k + 1) = [(ip, List.replicate (k + 1) t)] from rfl]
      rw [iterateDispatch_succ]
      dsimp only
      rw [hadm.1, hadm.2]
      rw [show repMap ip t (k + 1 + 1) = [(ip, List.replicate (k + 2) t)] from rfl] at hrec
      rw [hrec]
      simp [List.replicate_succ]

/-- Characterization of `dispatch` on a non-exempt request: the outcome
and the new record for the caller's identity are decided by comparing the
pruned record length against the limit; the timestamp is appended exactly
on admission. -/
theorem dispatch_char (rl : RateLimiter) (req : Request) (now : Int) (base : HttpResp)
    (hpath : ¬(req.path = "/health")) :
    ((dispatch rl req now base).2.2
        = if rl.requestsPerMinute ≤
              ((cleanOldTimestamps rl (getClientIp req) now).entry (getClientIp req)).length
          then DispatchKind.denied else DispatchKind.admitted)
    ∧ ((dispatch rl req now base).1.entry (getClientIp req)
        = if rl.requestsPerMinute ≤
              ((cleanOldTimestamps rl (getClientIp req) now).entry (getClientIp req)).length
          then (cleanOldTimestamps rl (getClientIp req) now).entry (getClientIp req)
          else (cleanOldTimestamps rl (getClientIp req) now).entry (getClientIp req) ++ [now]) := by
  have hlim := clean_requestsPerMinute rl (getClientIp req) now
  rcases hl : alLookup (cleanOldTimestamps rl (getClientIp req) now).requestTimestamps
      (getClientIp req) with _ | l
  · have hentry : (cleanOldTimestamps rl (getClientIp req) now).entry (getClientIp req) = [] := by
      simp [RateLimiter.entry, hl]
    by_cases hle : rl.requestsPerMinute ≤ 0
    · constructor <;>
        simp [dispatch, hpath, hl, hentry, hlim, hle, RateLimiter.entry, alLookup_alSet_self]
    · constructor <;>
        simp [dispatch, hpath, hl, hentry, hlim, hle, RateLimiter.entry, alLookup_alSet_self]
  · have hentry : (cleanOldTimestamps rl (getClientIp req) now).entry (getClientIp req) = l := by
      simp [RateLimiter.entry, hl]
    by_cases hle : rl.requestsPerMinute ≤ l.length
    · constructor <;>
        simp [dispatch, hpath, hl, hentry, hlim, hle, RateLimiter.entry, alLookup_alSet_self]
    · constructor <;>
        simp [dispatch, hpath, hl, hentry, hlim, hle, RateLimiter.entry, alLookup_alSet_self]

/-- A denied non-exempt request gets the bare 429 response with the
over-limit body and no headers. -/
theorem dispatch_denied_resp (rl : RateLimiter) (req : Request) (now : Int) (base : HttpResp)
    (hpath : ¬(req.path = "/health"))
    (hle : rl.requestsPerMinute ≤
      ((cleanOldTimestamps rl (getClientIp req) now).entry (getClientIp req)).length) :
    (dispatch rl req now base).2.1
      = ⟨429, [], some ⟨"Rate limit exceeded", rl.requestsPerMinute, "1 minute",
          "Too many requests. Maximum " ++ toString rl.requestsPerMinute
            ++ " requests per minute allowed."⟩⟩ := by
  have hlim := clean_requestsPerMinute rl (getClientIp req) now
  rcases hl : alLookup (cleanOldTimestamps rl (getClientIp req) now).requestTimestamps
      (getClientIp req) with _ | l
  · have hentry : (cleanOldTimestamps rl (getClientIp req) now).entry (getClientIp req) = [] := by
      simp [RateLimiter.entry, hl]
    rw [hentry] at hle
    have hle0 : rl.requestsPerMinute = 0 := by simpa using hle
    simp [dispatch, hpath, hl, hlim, hle0, alLookup_alSet_self]
  · have hentry : (cleanOldTimestamps rl (getClientIp req) now).entry (getClientIp req) = l := by
      simp [RateLimiter.entry, hl]
    rw [hentry] at hle
    simp [dispatch, hpath, hl, hlim, hle]

/-- An admitted non-exempt request gets the downstream response with the
three `X-RateLimit-*` headers set. -/
theorem dispatch_admitted_headers (rl : RateLimiter) (req : Request) (now : Int) (base : HttpResp)
    (hpath : ¬(req.path = "/health"))
    (hle : ¬(rl.requestsPerMinute ≤
      ((cleanOldTimestamps rl (getClientIp req) now).entry (getClientIp req)).length)) :
    (dispatch rl req now base).2.1.headers
      = setHeader (setHeader (setHeader base.headers
          "X-RateLimit-Limit" (toString rl.requestsPerMinute))
          "X-RateLimit-Remaining" (toString (rl.requestsPerMinute -
            (((cleanOldTimestamps rl (getClientIp req) now).entry (getClientIp req)).length + 1))))
          "X-RateLimit-Reset" (toString (now + rl.windowSize)) := by
  have hlim := clean_requestsPerMinute rl (getClientIp req) now
  have hwin := clean_windowSize rl (getClientIp req) now
  rcases hl : alLookup (cleanOldTimestamps rl (getClientIp req) now).requestTimestamps
      (getClientIp req) with _ | l
  · have hentry : (cleanOldTimestamps rl (getClientIp req) now).entry (getClientIp req) = [] := by
      simp [RateLimiter.entry, hl]
    rw [hentry] at hle
    have hle0 : ¬(rl.requestsPerMinute = 0) := by simpa using hle
    simp [dispatch, hpath, hl, hlim, hwin, hle0, hentry, alLookup_alSet_self]
  · have hentry : (cleanOldTimestamps rl (getClientIp req) now).entry (getClientIp req) = l := by
      simp [RateLimiter.entry, hl]
    rw [hentry] at hle
    simp [dispatch, hpath, hl, hlim, hwin, hle, hentry]

/-- The post-dispatch record for the caller's identity, at the level of
map lookups. -/
theorem dispatch_lookup_char (rl : RateLimiter) (req : Request) (now : Int) (base : HttpResp)
    (hpath : ¬(req.path = "/health")) :
    (∀ l, alLookup (cleanOldTimestamps rl (getClientIp req) now).requestTimestamps
        (getClientIp req) = some l →
      alLookup (dispatch rl req now base).1.requestTimestamps (getClientIp req)
        = some (if rl.requestsPerMinute ≤ l.length then l else l ++ [now]))
    ∧ (alLookup (cleanOldTimestamps rl (getClientIp req) now).requestTimestamps
        (getClientIp req) = none →
      alLookup (dispatch rl req now base).1.requestTimestamps (getClientIp req)
        = some (if rl.requestsPerMinute = 0 then [] else [now])) := by
  have hlim := clean_requestsPerMinute rl (getClientIp req) now
  constructor
  · intro l hl
    by_cases hle : rl.requestsPerMinute ≤ l.length
    · simp [dispatch, hpath, hl, hlim, hle]
    · simp [dispatch, hpath, hl, hlim, hle, alLookup_alSet_self]
  · intro hl
    by_cases hle0 : rl.requestsPerMinute = 0
    · simp [dispatch, hpath, hl, hlim, hle0, alLookup_alSet_self]
    · simp [dispatch, hpath, hl, hlim, hle0, alLookup_alSet_self]

/-- Witness for C1 amended: the all-404 catalog, instantiated. -/
theorem c1_amended_witness :
    (getTableColumns ⟨300, true, []⟩ catalogNotFound 0 "s" "t").1 = []
    ∧ alLookup (getTableColumns ⟨300, true, []⟩ catalogNotFound 0 "s" "t").2.1.cache
        ("s" ++ "." ++ "t") = some ([], 0) := by
  have h := c1_amended ⟨300, true, []⟩ catalogNotFound 0 10 "s" "t" rfl
    (by intro cols ts hl; simp [alLookup] at hl)
    (by intro cols h1; rw [show catalogNotFound ("s" ++ "." ++ "t") = .resp 404 [] from rfl] at h1; cases h1)
    (by intro cols h1; rw [show catalogNotFound "t" = .resp 404 [] from rfl] at h1; cases h1)
    (by decide)
  exact ⟨h.1, h.2.1⟩


/-! ## C4: admission rule -/

/-- C4: a non-exempt request is admitted iff, after pruning, the retained
timestamp count for its identity is strictly below the limit; the current
timestamp is appended exactly on admission and a denied request leaves the
pruned record unchanged; and from a fresh limiter with limit `L`, `L`
same-window requests are all admitted while the `L + 1`-st is denied. -/
theorem c4_admission_rule (rl : RateLimiter) (req : Request) (now : Int) (base : HttpResp)
    (hpath : req.path ≠ "/health") :
    (((dispatch rl req now base).2.2 = DispatchKind.admitted ↔
       ((cleanOldTimestamps rl (getClientIp req) now).entry (getClientIp req)).length
         < rl.requestsPerMinute)
     ∧ ((dispatch rl req now base).2.2 = DispatchKind.admitted →
         (dispatch rl req now base).1.entry (getClientIp req)
           = (cleanOldTimestamps rl (getClientIp req) now).entry (getClientIp req) ++ [now])
     ∧ ((dispatch rl req now base).2.2 = DispatchKind.denied →
         (dispatch rl req now base).1.entry (getClientIp req)
           = (cleanOldTimestamps rl (getClientIp req) now).entry (getClientIp req)))
    ∧ (∀ L ip t, (iterateDispatch ⟨"/api", none, some ip⟩ t base (RateLimiter.init L) (L + 1)).2
        = List.replicate L DispatchKind.admitted ++ [DispatchKind.denied]) := by
  constructor
  · obtain ⟨hkind, hentry⟩ := dispatch_char rl req now base hpath
    by_cases hle : rl.requestsPerMinute ≤
        ((cleanOldTimestamps rl (getClientIp req) now).entry (getClientIp req)).length
    · rw [if_pos hle] at hkind hentry
      refine ⟨?_, ?_, ?_⟩
      · rw [hkind]
        exact iff_of_false (by simp) (not_lt.mpr hle)
      · intro h
        rw [hkind] at h
        simp at h
      · intro _
        exact hentry
    · rw [if_neg hle] at hkind hentry
      refine ⟨?_, ?_, ?_⟩
      · rw [hkind]
        exact iff_of_true rfl (not_le.mp hle)
      · intro _
        exact hentry
      · intro h
        rw [hkind] at h
        simp at h
  · intro L ip t
    exact iterate_repMap L ip t base L 0 (by omega)

/-- Witness for C4: limit 3, four same-instant requests — three admitted,
then one denied. -/
theorem c4_admission_rule_witness :
    (iterateDispatch ⟨"/api", none, some "1.2.3.4"⟩ 0 ⟨200, [], none⟩
        (RateLimiter.init 3) 4).2
      = List.replicate 3 DispatchKind.admitted ++ [DispatchKind.denied] :=
  (c4_admission_rule (RateLimiter.init 3) ⟨"/api", none, some "1.2.3.4"⟩ 0 ⟨200, [], none⟩
    (by decide)).2 3 "1.2.3.4" 0

/-! ## C2: rate-limit headers -/

/-- C2 counterexample: a denied request's response carries the 429 status
and the over-limit body, but NOT the three rate-limit headers (its header
list is empty) — the claim that every non-exempt response carries them
"whether the request was admitted or denied" fails on this input. -/
theorem c2_counterexample :
    (dispatch ⟨1, 60, [("9.9.9.9", [100])]⟩ ⟨"/api/v1/lineage", none, some "9.9.9.9"⟩ 100
       ⟨200, [], none⟩).2.2 = DispatchKind.denied
    ∧ (dispatch ⟨1, 60, [("9.9.9.9", [100])]⟩ ⟨"/api/v1/lineage", none, some "9.9.9.9"⟩ 100
       ⟨200, [], none⟩).2.1.status = 429
    ∧ (dispatch ⟨1, 60, [("9.9.9.9", [100])]⟩ ⟨"/api/v1/lineage", none, some "9.9.9.9"⟩ 100
       ⟨200, [], none⟩).2.1.headers = []
    ∧ (dispatch ⟨1, 60, [("9.9.9.9", [100])]⟩ ⟨"/api/v1/lineage", none, some "9.9.9.9"⟩ 100
       ⟨200, [], none⟩).2.1.detail
        = some ⟨"Rate limit exceeded", 1, "1 minute",
            "Too many requests. Maximum 1 requests per minute allowed."⟩ := by
  refine ⟨by decide, by decide, by decide, by decide⟩

/-- C2 amended: every ADMITTED non-exempt response carries the three
rate-limit headers; a denied request instead receives the 429 response
with the `{error, limit, window, message}` body and no rate-limit headers;
no non-exempt request is treated as exempt. -/
theorem c2_amended (rl : RateLimiter) (req : Request) (now : Int) (base : HttpResp)
    (hpath : req.path ≠ "/health") :
    ((dispatch rl req now base).2.2 = DispatchKind.admitted →
      "X-RateLimit-Limit" ∈ (dispatch rl req now base).2.1.headers.map Prod.fst
      ∧ "X-RateLimit-Remaining" ∈ (dispatch rl req now base).2.1.headers.map Prod.fst
      ∧ "X-RateLimit-Reset" ∈ (dispatch rl req now base).2.1.headers.map Prod.fst)
    ∧ ((dispatch rl req now base).2.2 = DispatchKind.denied →
        (dispatch rl req now base).2.1
          = ⟨429, [], some ⟨"Rate limit exceeded", rl.requestsPerMinute, "1 minute",
              "Too many requests. Maximum " ++ toString rl.requestsPerMinute
                ++ " requests per minute allowed."⟩⟩)
    ∧ (dispatch rl req now base).2.2 ≠ DispatchKind.exempt := by
  obtain ⟨hkind, _⟩ := dispatch_char rl req now base hpath
  by_cases hle : rl.requestsPerMinute ≤
      ((cleanOldTimestamps rl (getClientIp req) now).entry (getClientIp req)).length
  · rw [if_pos hle] at hkind
    refine ⟨?_, ?_, ?_⟩
    · intro h
      rw [hkind] at h
      simp at h
    · intro _
      exact dispatch_denied_resp rl req now base hpath hle
    · rw [hkind]
      simp
  · rw [if_neg hle] at hkind
    refine ⟨?_, ?_, ?_⟩
    · intro _
      rw [dispatch_admitted_headers rl req now base hpath hle]
      exact ⟨mem_setHeader_mono _ _ _ _ (mem_setHeader_mono _ _ _ _ (mem_setHeader_self _ _ _)),
             mem_setHeader_mono _ _ _ _ (mem_setHeader_self _ _ _),
             mem_setHeader_self _ _ _⟩
    · intro h
      rw [hkind] at h
      simp at h
    · rw [hkind]
      simp

/-- Witness for C2 amended: an admitted request on a fresh limiter carries
all three rate-limit headers. -/
theorem c2_amended_witness :
    "X-RateLimit-Limit" ∈ ((dispatch (RateLimiter.init 100) ⟨"/api", none, some "1.1.1.1"⟩ 0
        ⟨200, [], none⟩).2.1.headers.map Prod.fst)
    ∧ "X-RateLimit-Remaining" ∈ ((dispatch (RateLimiter.init 100) ⟨"/api", none, some "1.1.1.1"⟩ 0
        ⟨200, [], none⟩).2.1.headers.map Prod.fst)
    ∧ "X-RateLimit-Reset" ∈ ((dispatch (RateLimiter.init 100) ⟨"/api", none, some "1.1.1.1"⟩ 0
        ⟨200, [], none⟩).2.1.headers.map Prod.fst) :=
  (c2_amended (RateLimiter.init 100) ⟨"/api", none, some "1.1.1.1"⟩ 0 ⟨200, [], none⟩
    (by decide)).1 (by decide)

/-! ## C6: pruning invariant -/

/-- C6: before each admission evaluation the record is pruned from the
front to timestamps within the window and deleted when it becomes empty:
after `cleanOldTimestamps`, the identity's entry is exactly the
front-pruned sequence when non-empty and absent when the prune empties it;
any surviving entry is non-empty with all timestamps at least
`now − window_size`; and the record left for the dispatched identity by a
full non-exempt dispatch is likewise never an empty retained sequence and
stays within the window. -/
theorem c6_prune_invariant (rl : RateLimiter) (ip : String) (now : Int)
    (req : Request) (base : HttpResp)
    (hnodup : (rl.requestTimestamps.map Prod.fst).Nodup)
    (hsorted : (rl.entry ip).Pairwise (· ≤ ·))
    (hwin : 0 ≤ rl.windowSize)
    (hlim : 0 < rl.requestsPerMinute) :
    (alLookup (cleanOldTimestamps rl ip now).requestTimestamps ip
      = optList ((rl.entry ip).dropWhile (fun t => t < now - rl.windowSize)))
    ∧ (∀ l, alLookup (cleanOldTimestamps rl ip now).requestTimestamps ip = some l →
        l ≠ [] ∧ ∀ x ∈ l, now - rl.windowSize ≤ x)
    ∧ (req.path ≠ "/health" → getClientIp req = ip →
        ∀ l, alLookup (dispatch rl req now base).1.requestTimestamps ip = some l →
          l ≠ [] ∧ ∀ x ∈ l, now - rl.windowSize ≤ x) := by
  have h1 : alLookup (cleanOldTimestamps rl ip now).requestTimestamps ip
      = optList ((rl.entry ip).dropWhile (fun t => t < now - rl.windowSize)) := by
    by_cases h : (rl.entry ip).dropWhile (fun t => t < now - rl.windowSize) = []
    · simp only [cleanOldTimestamps, optList, h, if_pos rfl]
      exact alLookup_alErase_self _ _ hnodup
    · simp only [cleanOldTimestamps, optList, if_neg h]
      exact alLookup_alSet_self _ _ _
  have h2 : ∀ l, alLookup (cleanOldTimestamps rl ip now).requestTimestamps ip = some l →
      l ≠ [] ∧ ∀ x ∈ l, now - rl.windowSize ≤ x := by
    intro l hl
    rw [h1] at hl
    unfold optList at hl
    by_cases h : (rl.entry ip).dropWhile (fun t => t < now - rl.windowSize) = []
    · rw [if_pos h] at hl
      cases hl
    · rw [if_neg h] at hl
      injection hl with hl'
      subst hl'
      exact ⟨h, dropWhile_lt_bound _ _ hsorted⟩
  refine ⟨h1, h2, ?_⟩
  intro hpath hip l hl
  obtain ⟨hsome, hnone⟩ := dispatch_lookup_char rl req now base hpath
  rw [hip] at hsome hnone
  rcases hcl : alLookup (cleanOldTimestamps rl ip now).requestTimestamps ip with _ | l0
  · have hres := hnone hcl
    rw [if_neg (by omega : ¬ rl.requestsPerMinute = 0)] at hres
    rw [hres] at hl
    injection hl with hl'
    subst hl'
    refine ⟨by simp, ?_⟩
    intro x hx
    rcases List.mem_singleton.mp hx with rfl
    omega
  · have hprops := h2 l0 hcl
    have hres := hsome l0 hcl
    by_cases hle : rl.requestsPerMinute ≤ l0.length
    · rw [if_pos hle] at hres
      rw [hres] at hl
      injection hl with hl'
      subst hl'
      exact hprops
    · rw [if_neg hle] at hres
      rw [hres] at hl
      injection hl with hl'
      subst hl'
      refine ⟨by simp, ?_⟩
      intro x hx
      rcases List.mem_append.mp hx with hx | hx
      · exact hprops.2 x hx
      · rcases List.mem_singleton.mp hx with rfl
        omega

/-- Witness for C6: an identity with timestamps 10 and 50, pruned at time
75 under the 60-second window, retains exactly the in-window timestamp. -/
theorem c6_prune_invariant_witness :
    ([50] : List Int) ≠ [] ∧ ∀ x ∈ ([50] : List Int), (75 : Int) - 60 ≤ x := by
  have h := c6_prune_invariant ⟨2, 60, [("a", [10, 50])]⟩ "a" 75
    ⟨"/api", none, some "a"⟩ ⟨200, [], none⟩ (by decide) (by decide) (by decide) (by decide)
  have hl : alLookup (cleanOldTimestamps ⟨2, 60, [("a", [10, 50])]⟩ "a" 75).requestTimestamps "a"
      = some [50] := by decide
  have hres := h.2.1 [50] hl
  have hbound : ∀ x ∈ ([50] : List Int), (75 : Int) - 60 ≤ x := hres.2
  exact ⟨hres.1, hbound⟩


/-! ## Projector lemmas -/

theorem pathEnds_eq_none_iff (p : List Column) : pathEnds p = none ↔ p = [] := by
  constructor
  · intro h
    rcases hr : p.reverse with _ | ⟨a, rest⟩
    · simpa using congrArg List.reverse hr
    · unfold pathEnds at h
      rw [hr] at h
      cases rest <;> simp at h
  · intro h
    subst h
    rfl

theorem buildLineageMap_all_ok (acc : List (Column × List Column)) (paths : List (List Column))
    (h : ∀ p ∈ paths, p ≠ []) : (buildLineageMap acc paths).2 = false := by
  induction paths generalizing acc with
  | nil => rfl
  | cons p rest ih =>
    rcases hpe : pathEnds p with _ | ⟨s, t⟩
    · exact absurd ((pathEnds_eq_none_iff p).mp hpe) (h p (by simp))
    · simp only [buildLineageMap, hpe]
      exact ih _ (fun q hq => h q (by simp [hq]))

theorem buildLineageMap_append_empty (acc : List (Column × List Column))
    (pre post : List (List Column)) (h : ∀ p ∈ pre, p ≠ []) :
    buildLineageMap acc (pre ++ [] :: post) = ((buildLineageMap acc pre).1, true) := by
  induction pre generalizing acc with
  | nil => simp [buildLineageMap, pathEnds]
  | cons p rest ih =>
    rcases hpe : pathEnds p with _ | ⟨s, t⟩
    · exact absurd ((pathEnds_eq_none_iff p).mp hpe) (h p (by simp))
    · simp only [List.cons_append, buildLineageMap, hpe]
      exact ih _ (fun q hq => h q (by simp [hq]))

theorem cmLookup_cmAppend (m : List (Column × List Column)) (t s k : Column) :
    cmLookup (cmAppend m t s) k
      = if t = k then some (((cmLookup m k).getD []) ++ [s]) else cmLookup m k := by
  induction m with
  | nil =>
    by_cases h : t = k <;> simp [cmAppend, cmLookup, h]
  | cons p rest ih =>
    obtain ⟨a, vs⟩ := p
    by_cases hat : a = t
    · subst hat
      by_cases hak : a = k
      · subst hak
        simp [cmAppend, cmLookup]
      · simp [cmAppend, cmLookup, hak, fun hh : a = k => hak hh]
    · by_cases hak : a = k
      · subst hak
        have hta : ¬ t = a := fun hh => hat hh.symm
        simp [cmAppend, cmLookup, hat, hta]
      · simp [cmAppend, cmLookup, hat, hak, ih]

theorem mem_cmAppend_keys (m : List (Column × List Column)) (t s k : Column) :
    k ∈ (cmAppend m t s).map Prod.fst ↔ k ∈ m.map Prod.fst ∨ k = t := by
  induction m with
  | nil => simp [cmAppend]
  | cons p rest ih =>
    obtain ⟨a, vs⟩ := p
    by_cases hat : a = t
    · subst hat
      have hrw : cmAppend ((a, vs) :: rest) a s = (a, vs ++ [s]) :: rest := by
        simp [cmAppend]
      rw [hrw]
      simp only [List.map_cons, List.mem_cons]
      tauto
    · have hrw : cmAppend ((a, vs) :: rest) t s = (a, vs) :: cmAppend rest t s := by
        simp [cmAppend, hat]
      rw [hrw]
      simp only [List.map_cons, List.mem_cons, ih]
      tauto

theorem cmAppend_keys_nodup (m : List (Column × List Column)) (t s : Column)
    (h : (m.map Prod.fst).Nodup) : ((cmAppend m t s).map Prod.fst).Nodup := by
  induction m with
  | nil => simp [cmAppend]
  | cons p rest ih =>
    obtain ⟨a, vs⟩ := p
    simp only [List.map_cons, List.nodup_cons] at h
    by_cases hat : a = t
    · subst hat
      have hrw : cmAppend ((a, vs) :: rest) a s = (a, vs ++ [s]) :: rest := by
        simp [cmAppend]
      rw [hrw]
      simp only [List.map_cons, List.nodup_cons]
      exact ⟨h.1, h.2⟩
    · have hrw : cmAppend ((a, vs) :: rest) t s = (a, vs) :: cmAppend rest t s := by
        simp [cmAppend, hat]
      rw [hrw]
      simp only [List.map_cons, List.nodup_cons]
      refine ⟨?_, ih h.2⟩
      intro hmem
      rcases (mem_cmAppend_keys rest t s a).mp hmem with hin | rfl
      · exact h.1 hin
      · exact hat rfl

theorem buildLineageMap_nodup (paths : List (List Column)) :
    ∀ acc, ((acc.map Prod.fst).Nodup) →
      ((((buildLineageMap acc paths).1).map Prod.fst)).Nodup := by
  induction paths with
  | nil =>
    intro acc hacc
    exact hacc
  | cons p rest ih =>
    intro acc hacc
    rcases hpe : pathEnds p with _ | ⟨s, t⟩
    · simp only [buildLineageMap, hpe]
      exact hacc
    · simp only [buildLineageMap, hpe]
      exact ih _ (cmAppend_keys_nodup acc t s hacc)

theorem buildLineageMap_lookup (paths : List (List Column)) :
    ∀ acc t, (∀ p ∈ paths, p ≠ []) →
      cmLookup (buildLineageMap acc paths).1 t
        = bucketJoin (cmLookup acc t) (immediateSources paths t) := by
  induction paths with
  | nil =>
    intro acc t _
    rcases h : cmLookup acc t with _ | v <;>
      simp [buildLineageMap, immediateSources, bucketJoin, optList, h]
  | cons p rest ih =>
    intro acc t h
    rcases hpe : pathEnds p with _ | ⟨s, t0⟩
    · exact absurd ((pathEnds_eq_none_iff p).mp hpe) (h p (by simp))
    · have hsrc : immediateSources (p :: rest) t
          = if t0 = t then s :: immediateSources rest t else immediateSources rest t := by
        simp only [immediateSources, List.filterMap_cons, hpe]
        by_cases ht : t0 = t
        · simp [ht]
        · simp [ht]
      simp only [buildLineageMap, hpe]
      rw [ih (cmAppend acc t0 s) t (fun q hq => h q (by simp [hq]))]
      rw [cmLookup_cmAppend, hsrc]
      by_cases ht : t0 = t
      · rw [if_pos ht, if_pos ht]
        rcases hl : cmLookup acc t with _ | v
        · simp [bucketJoin, optList]
        · simp [bucketJoin, optList]
      · rw [if_neg ht, if_neg ht]

theorem cmLookup_of_mem_nodup (m : List (Column × List Column))
    (hnodup : (m.map Prod.fst).Nodup) :
    ∀ kv ∈ m, cmLookup m kv.1 = some kv.2 := by
  induction m with
  | nil => simp
  | cons p rest ih =>
    intro kv hkv
    simp only [List.map_cons, List.nodup_cons] at hnodup
    rcases List.mem_cons.mp hkv with rfl | hkv2
    · simp [cmLookup]
    · have hne : p.1 ≠ kv.1 := by
        intro he
        exact hnodup.1 (he ▸ List.mem_map.mpr ⟨kv, hkv2, rfl⟩)
      simp [cmLookup, hne, ih hnodup.2 kv hkv2]

theorem map_keys_lookup (m : List (Column × List Column))
    (hnodup : (m.map Prod.fst).Nodup) :
    (m.map Prod.fst).map
        (fun t => (⟨format_column t, ((cmLookup m t).getD []).map format_column⟩ : ColumnPair))
      = m.map (fun kv => ⟨format_column kv.1, kv.2.map format_column⟩) := by
  rw [List.map_map]
  apply List.map_congr_left
  intro kv hkv
  simp [cmLookup_of_mem_nodup m hnodup kv hkv]

theorem stableInsertBy_perm {α : Type} (key : α → String) (x : α) (l : List α) :
    (stableInsertBy key x l).Perm (x :: l) := by
  induction l with
  | nil => exact List.Perm.refl _
  | cons y ys ih =>
    unfold stableInsertBy
    by_cases hc : key y < key x
    · rw [if_pos hc]
      exact (List.Perm.cons y ih).trans (List.Perm.swap x y ys)
    · rw [if_neg hc]

theorem stableSortBy_perm {α : Type} (key : α → String) (l : List α) :
    (stableSortBy key l).Perm l := by
  induction l with
  | nil => exact List.Perm.refl _
  | cons x xs ih =>
    unfold stableSortBy
    exact (stableInsertBy_perm key x _).trans (List.Perm.cons x ih)

theorem stableInsertBy_pairwise {α : Type} (key : α → String) (x : α) (l : List α)
    (h : l.Pairwise (fun a b => ¬ key b < key a)) :
    (stableInsertBy key x l).Pairwise (fun a b => ¬ key b < key a) := by
  induction l with
  | nil => simp [stableInsertBy]
  | cons y ys ih =>
    rw [List.pairwise_cons] at h
    unfold stableInsertBy
    by_cases hc : key y < key x
    · rw [if_pos hc, List.pairwise_cons]
      constructor
      · intro a ha
        rcases List.mem_cons.mp ((stableInsertBy_perm key x ys).mem_iff.mp ha) with rfl | ha2
        · exact lt_asymm hc
        · exact h.1 a ha2
      · exact ih h.2
    · rw [if_neg hc, List.pairwise_cons]
      constructor
      · intro a ha
        rcases List.mem_cons.mp ha with rfl | ha2
        · exact hc
        · exact not_lt.mpr (le_trans (not_lt.mp hc) (not_lt.mp (h.1 a ha2)))
      · rw [List.pairwise_cons]
        exact ⟨h.1, h.2⟩

theorem stableSortBy_pairwise {α : Type} (key : α → String) (l : List α) :
    (stableSortBy key l).Pairwise (fun a b => ¬ key b < key a) := by
  induction l with
  | nil => simp [stableSortBy]
  | cons x xs ih => exact stableInsertBy_pairwise key x _ ih


/-! ## C3: view-level failure tolerance -/

/-- C3 counterexample: a graph whose second full path is empty makes the
column-pairs extraction append a warning, but the view's result is NOT
empty — the pair built from the first path survives. -/
theorem c3_counterexample :
    (extractColumnPairs [[⟨"u", ColumnParent.noParent⟩, ⟨"w", ColumnParent.noParent⟩],
        []]).2 = true
    ∧ (extractColumnPairs [[⟨"u", ColumnParent.noParent⟩, ⟨"w", ColumnParent.noParent⟩],
        []]).1 = [⟨"w", ["u"]⟩] := by
  exact ⟨by decide, by decide⟩

/-- C3 amended: a malformed (empty) path makes the column-pairs view catch
the error, append a warning, and return exactly the pairs accumulated from
the paths before it (an empty result when the empty path comes first); the
table-lineage view of the same graph is unaffected; the full-paths view
treats an empty path as an empty rendered path, not as an error; and the
overall request still succeeds, with the construction counters intact. -/
theorem c3_amended (pre post : List (List Column)) (hpre : ∀ p ∈ pre, p ≠ [])
    (sql dialect : String) (st tt : List Table) :
    (extractColumnPairs (pre ++ [] :: post)).2 = true
    ∧ (extractColumnPairs (pre ++ [] :: post)).1 = (extractColumnPairs pre).1
    ∧ (pre = [] → (extractColumnPairs (pre ++ [] :: post)).1 = [])
    ∧ get_table_lineage sql dialect (Except.ok ⟨pre ++ [] :: post, st, tt⟩)
        = get_table_lineage sql dialect (Except.ok ⟨pre, st, tt⟩)
    ∧ get_column_lineage sql dialect (Except.ok ⟨pre ++ [] :: post, st, tt⟩)
        = { columnLineagePaths := (pre ++ [] :: post).map (fun p => ⟨p.map format_column⟩),
            warnings := [],
            metadata := okMetadata dialect (countStatements sql) }
    ∧ get_column_pairs sql dialect (Except.ok ⟨pre ++ [] :: post, st, tt⟩)
        = { columnPairs := (extractColumnPairs pre).1,
            warnings := [columnPairsWarning],
            metadata := okMetadata dialect (countStatements sql) } := by
  have hb := buildLineageMap_append_empty [] pre post hpre
  have h2 : (extractColumnPairs (pre ++ [] :: post)).2 = true := by
    simp [extractColumnPairs, hb]
  have h1 : (extractColumnPairs (pre ++ [] :: post)).1 = (extractColumnPairs pre).1 := by
    simp [extractColumnPairs, hb]
  refine ⟨h2, h1, ?_, ?_, ?_, ?_⟩
  · intro h
    subst h
    rw [h1]
    rfl
  · rfl
  · rfl
  · simp [get_column_pairs, h1, h2]

/-- Witness for C3 amended: the empty path first, a good path after it —
the pairs view degrades to an empty list with the warning, the full-paths
view keeps both paths. -/
theorem c3_amended_witness :
    (extractColumnPairs ([] ++ [] :: [[⟨"u", ColumnParent.noParent⟩,
        ⟨"w", ColumnParent.noParent⟩]])).2 = true
    ∧ (extractColumnPairs ([] ++ [] :: [[⟨"u", ColumnParent.noParent⟩,
        ⟨"w", ColumnParent.noParent⟩]])).1 = [] := by
  have h := c3_amended [] [[⟨"u", ColumnParent.noParent⟩, ⟨"w", ColumnParent.noParent⟩]]
    (by decide) "SELECT 1" "ansi" [] []
  exact ⟨h.1, h.2.2.1 rfl⟩

/-! ## C5: column-pairs grouping and ordering -/

/-- C5 counterexample: two full paths whose targets are DIFFERENT column
nodes (a subquery-qualified column and a default-schema table column) that
render to the same string "q.c" produce TWO entries with that target, not
one — grouping is by column identity, not by rendered string. -/
theorem c5_counterexample :
    (extractColumnPairs
        [[⟨"u", ColumnParent.noParent⟩, ⟨"c", ColumnParent.subquery "q"⟩],
         [⟨"v", ColumnParent.noParent⟩,
          ⟨"c", ColumnParent.table ⟨"q", some "<default>"⟩⟩]]).1
      = [⟨"q.c", ["u"]⟩, ⟨"q.c", ["v"]⟩] := by
  have hlt : ¬ (format_column ⟨"c", ColumnParent.table ⟨"q", some "<default>"⟩⟩
      < format_column ⟨"c", ColumnParent.subquery "q"⟩) := by
    show ¬ (("q.c" : String) < "q.c")
    exact lt_irrefl _
  have hsort : stableSortBy format_column
      [(⟨"c", ColumnParent.subquery "q"⟩ : Column),
       (⟨"c", ColumnParent.table ⟨"q", some "<default>"⟩⟩ : Column)]
      = [⟨"c", ColumnParent.subquery "q"⟩,
         ⟨"c", ColumnParent.table ⟨"q", some "<default>"⟩⟩] := by
    simp only [stableSortBy, stableInsertBy]
    rw [if_neg hlt]
  show (stableSortBy format_column
      [(⟨"c", ColumnParent.subquery "q"⟩ : Column),
       (⟨"c", ColumnParent.table ⟨"q", some "<default>"⟩⟩ : Column)]).map
      (fun t => (⟨format_column t,
        ((cmLookup [((⟨"c", ColumnParent.subquery "q"⟩ : Column),
            [(⟨"u", ColumnParent.noParent⟩ : Column)]),
           ((⟨"c", ColumnParent.table ⟨"q", some "<default>"⟩⟩ : Column),
            [(⟨"v", ColumnParent.noParent⟩ : Column)])]
          t).getD []).map format_column⟩ : ColumnPair))
      = ([⟨"q.c", ["u"]⟩, ⟨"q.c", ["v"]⟩] : List ColumnPair)
  rw [hsort]
  rfl

/-- C5 amended: the column-pairs view groups by target COLUMN (one entry
per distinct target column, whose sources are the second-to-last node of
each full path ending at that column, in path order; a single-node path
contributes itself as both source and target), and the entry list is
sorted ascending by the rendered target string; distinct target columns
that render to the same string keep separate entries. -/
theorem c5_amended (paths : List (List Column)) (h : ∀ p ∈ paths, p ≠ []) :
    (extractColumnPairs paths).2 = false
    ∧ ((((buildLineageMap [] paths).1).map Prod.fst)).Nodup
    ∧ (∀ t, cmLookup (buildLineageMap [] paths).1 t = optList (immediateSources paths t))
    ∧ (extractColumnPairs paths).1.Perm
        (((buildLineageMap [] paths).1).map
          (fun kv => ⟨format_column kv.1, kv.2.map format_column⟩))
    ∧ (extractColumnPairs paths).1.Pairwise (fun a b => a.target ≤ b.target) := by
  have hb0 : (buildLineageMap [] paths).2 = false := buildLineageMap_all_ok [] paths h
  have hnodup : ((((buildLineageMap [] paths).1).map Prod.fst)).Nodup :=
    buildLineageMap_nodup paths [] (by simp)
  have hlook : ∀ t, cmLookup (buildLineageMap [] paths).1 t
      = optList (immediateSources paths t) := by
    intro t
    rw [buildLineageMap_lookup paths [] t h]
    rfl
  have hx : (extractColumnPairs paths).1
      = (stableSortBy format_column (((buildLineageMap [] paths).1).map Prod.fst)).map
          (fun t => ⟨format_column t,
            ((cmLookup (buildLineageMap [] paths).1 t).getD []).map format_column⟩) := by
    simp [extractColumnPairs]
  refine ⟨by simp [extractColumnPairs, hb0], hnodup, hlook, ?_, ?_⟩
  · rw [hx]
    have hperm := (stableSortBy_perm format_column
        (((buildLineageMap [] paths).1).map Prod.fst)).map
      (fun t => (⟨format_column t,
        ((cmLookup (buildLineageMap [] paths).1 t).getD []).map format_column⟩ : ColumnPair))
    exact hperm.trans (by rw [map_keys_lookup _ hnodup])
  · rw [hx, List.pairwise_map]
    exact List.Pairwise.imp (fun hab => not_lt.mp hab)
      (stableSortBy_pairwise format_column (((buildLineageMap [] paths).1).map Prod.fst))

/-- Witness for C5 amended: two paths ending at the SAME target column
yield one entry whose sources are both predecessors in path order. -/
theorem c5_amended_witness :
    (extractColumnPairs
        [[⟨"u", ColumnParent.noParent⟩, ⟨"c", ColumnParent.subquery "q"⟩],
         [⟨"v", ColumnParent.noParent⟩, ⟨"c", ColumnParent.subquery "q"⟩]]).1.Perm
      (((buildLineageMap []
          [[⟨"u", ColumnParent.noParent⟩, ⟨"c", ColumnParent.subquery "q"⟩],
           [⟨"v", ColumnParent.noParent⟩, ⟨"c", ColumnParent.subquery "q"⟩]]).1).map
        (fun kv => ⟨format_column kv.1, kv.2.map format_column⟩)) :=
  (c5_amended
    [[⟨"u", ColumnParent.noParent⟩, ⟨"c", ColumnParent.subquery "q"⟩],
     [⟨"v", ColumnParent.noParent⟩, ⟨"c", ColumnParent.subquery "q"⟩]]
    (by decide)).2.2.2.1

/-! ## C10: statement counters -/

/-- C10: for each of the three lineage operations, the response metadata
satisfies `successful + failed = statement_count`, with `statement_count`
the number of non-whitespace semicolon-separated segments of the SQL; the
counters are all-or-nothing: a parser construction failure gives
`successful = 0, failed = statement_count`, and otherwise
`successful = statement_count, failed = 0` regardless of per-statement
outcomes. -/
theorem c10_statement_counters (sql dialect : String) (runner : RunnerOutcome) :
    ((get_column_pairs sql dialect runner).metadata.statementCount = countStatements sql
      ∧ (get_column_pairs sql dialect runner).metadata.successfulStatements
          + (get_column_pairs sql dialect runner).metadata.failedStatements
          = countStatements sql)
    ∧ ((get_table_lineage sql dialect runner).metadata.statementCount = countStatements sql
      ∧ (get_table_lineage sql dialect runner).metadata.successfulStatements
          + (get_table_lineage sql dialect runner).metadata.failedStatements
          = countStatements sql)
    ∧ ((get_column_lineage sql dialect runner).metadata.statementCount = countStatements sql
      ∧ (get_column_lineage sql dialect runner).metadata.successfulStatements
          + (get_column_lineage sql dialect runner).metadata.failedStatements
          = countStatements sql)
    ∧ (∀ e, runner = Except.error e →
        (get_column_pairs sql dialect runner).metadata.successfulStatements = 0
        ∧ (get_column_pairs sql dialect runner).metadata.failedStatements = countStatements sql
        ∧ (get_table_lineage sql dialect runner).metadata.successfulStatements = 0
        ∧ (get_table_lineage sql dialect runner).metadata.failedStatements = countStatements sql
        ∧ (get_column_lineage sql dialect runner).metadata.successfulStatements = 0
        ∧ (get_column_lineage sql dialect runner).metadata.failedStatements = countStatements sql)
    ∧ (∀ g, runner = Except.ok g →
        (get_column_pairs sql dialect runner).metadata.successfulStatements = countStatements sql
        ∧ (get_column_pairs sql dialect runner).metadata.failedStatements = 0
        ∧ (get_table_lineage sql dialect runner).metadata.successfulStatements = countStatements sql
        ∧ (get_table_lineage sql dialect runner).metadata.failedStatements = 0
        ∧ (get_column_lineage sql dialect runner).metadata.successfulStatements = countStatements sql
        ∧ (get_column_lineage sql dialect runner).metadata.failedStatements = 0) := by
  cases runner with
  | error e =>
    simp [get_column_pairs, get_table_lineage, get_column_lineage, errMetadata, okMetadata]
  | ok g =>
    simp [get_column_pairs, get_table_lineage, get_column_lineage, errMetadata, okMetadata]

/-- Witness for C10: "SELECT 1; ;SELECT 2" counts two statements; all-or-
nothing counters at both a successful and a failing construction. -/
theorem c10_statement_counters_witness :
    (get_column_pairs "SELECT 1; ;SELECT 2" "ansi"
        (Except.ok ⟨[], [], []⟩)).metadata.successfulStatements = 2
    ∧ (get_column_pairs "SELECT 1; ;SELECT 2" "ansi"
        (Except.error "boom")).metadata.failedStatements = 2 := by
  have h1 := (c10_statement_counters "SELECT 1; ;SELECT 2" "ansi"
    (Except.ok ⟨[], [], []⟩)).2.2.2.2 ⟨[], [], []⟩ rfl
  have h2 := (c10_statement_counters "SELECT 1; ;SELECT 2" "ansi"
    (Except.error "boom")).2.2.2.1 "boom" rfl
  exact ⟨h1.1.trans (by rfl), h2.2.1.trans (by rfl)⟩

end SqlLineageService
